import Mathlib

/-!
Verification of the Zembil cache/queue/metadata subsystem.

Shallow embedding of the TypeScript sources:
  * `src/core/database.ts` — SQLite-backed metadata index (`Database`) and the
    persistent download queue (`Queue`);
  * `src/core/cache.ts` — the content-addressed cache store (`Cache`).

Machine conventions: timestamps are `Nat` (milliseconds, `Date.getTime()`),
byte contents are `List Nat`, JavaScript strings are `String`.  Filesystem and
crypto library calls (Node `fs-extra` / `crypto`) are modelled at the library
boundary: the filesystem is explicit state, digests are a parameter (claims
depend only on which bytes are digested, never on digest values).
-/

/-- `QueueStatus` from `src/types/index.ts`. -/
inductive Status
  | pending
  | downloading
  | completed
  | failed
  | cancelled
deriving DecidableEq

/-- `QueueItem` from `src/types/index.ts`.  `manager` is the `PackageManager`
string union; `queuedAt` is the `Date` as epoch milliseconds. -/
structure QueueItem where
  id : String
  packageName : String
  version : String
  manager : String
  priority : Int
  queuedAt : Nat
  status : Status
  error : Option String := none
deriving DecidableEq

/-- `SyncResult` from `src/types/index.ts`. -/
structure SyncResult where
  success : Bool
  downloaded : Nat
  failed : Nat
  errors : List String
  totalSize : Nat
deriving DecidableEq

/-- `PackageInfo` from `src/types/index.ts`; dependency records are modelled
as association lists. -/
structure PackageInfo where
  name : String
  version : String
  manager : String
  description : Option String := none
  homepage : Option String := none
  repository : Option String := none
  license : Option String := none
  dependencies : Option (List (String × String)) := none
  devDependencies : Option (List (String × String)) := none
  peerDependencies : Option (List (String × String)) := none
deriving DecidableEq

/-- `CachedPackage` from `src/types/index.ts` (a `PackageInfo` plus cache
fields); one row of the `packages` table. -/
structure CachedPackage where
  id : String
  name : String
  version : String
  manager : String
  description : Option String := none
  homepage : Option String := none
  repository : Option String := none
  license : Option String := none
  dependencies : Option (List (String × String)) := none
  devDependencies : Option (List (String × String)) := none
  peerDependencies : Option (List (String × String)) := none
  cachedAt : Nat
  size : Nat
  checksum : String
  localPath : String
  documentationPath : Option String := none
  examplesPath : Option String := none
deriving DecidableEq

namespace Database

/-- `Database.savePackage` (`src/core/database.ts`): `INSERT OR REPLACE` into
the `packages` table, whose schema declares `id TEXT PRIMARY KEY` and
`UNIQUE(name, version)`.  SQLite's `OR REPLACE` deletes every row conflicting
on either constraint, then inserts the new row. -/
def savePackage (db : List CachedPackage) (pkg : CachedPackage) : List CachedPackage :=
  db.filter (fun r => !(r.id == pkg.id) && !(r.name == pkg.name && r.version == pkg.version)) ++ [pkg]

/-- `Database.getPackage`: `SELECT * FROM packages WHERE name = ? AND version = ?`,
returning the (by uniqueness at most one) matching row or `null`. -/
def getPackage (db : List CachedPackage) (name version : String) : Option CachedPackage :=
  db.find? (fun r => r.name == name && r.version == version)

/-- `Database.listPackages`: `SELECT * FROM packages ORDER BY cachedAt DESC`. -/
def listPackages (db : List CachedPackage) : List CachedPackage :=
  db.mergeSort (fun a b => b.cachedAt ≤ a.cachedAt)

/-- `Database.removePackage`: `DELETE FROM packages WHERE name = ? AND version = ?`. -/
def removePackage (db : List CachedPackage) (name version : String) : List CachedPackage :=
  db.filter (fun r => !(r.name == name && r.version == version))

end Database

namespace Queue

/-- `Queue.generateId` (`src/core/database.ts`): built from the manager, the
package coordinates, `Date.now()` and a random suffix. -/
def generateId (packageName version manager : String) (timestamp : Nat) (random : String) : String :=
  manager ++ "-" ++ packageName ++ "-" ++ version ++ "-" ++ toString timestamp ++ "-" ++ random

/-- `Queue.add` (`src/core/database.ts`): builds a fresh `pending` item, then
rejects when *any* entry with the same `(packageName, version, manager)`
triple is present (the source's `find` has no status condition), else appends
the item to the persisted queue and returns its id.  `now` is the `Date.now()`
moment, `random` the random id suffix. -/
def add (queue : List QueueItem) (packageName version manager : String)
    (priority : Int) (now : Nat) (random : String) :
    Except String (List QueueItem × String) :=
  let id := generateId packageName version manager now random
  let queueItem : QueueItem :=
    { id := id, packageName := packageName, version := version, manager := manager,
      priority := priority, queuedAt := now, status := Status.pending, error := none }
  let existing := queue.find? (fun item =>
    item.packageName == packageName && item.version == version && item.manager == manager)
  match existing with
  | some _ => Except.error ("Package " ++ packageName ++ "@" ++ version ++ " is already queued")
  | none => Except.ok (queue ++ [queueItem], id)

/-- The comparator of `Queue.list`:
`(a, b) => b.priority - a.priority || a.queuedAt.getTime() - b.queuedAt.getTime()`,
as the Boolean "a may come before b" relation of a stable sort. -/
def qle (a b : QueueItem) : Bool :=
  decide (b.priority < a.priority ∨ (a.priority = b.priority ∧ a.queuedAt ≤ b.queuedAt))

/-- `Queue.list`: all entries, stably sorted by priority descending then
`queuedAt` ascending (JavaScript `Array#sort` is a stable sort). -/
def list (queue : List QueueItem) : List QueueItem :=
  queue.mergeSort qle

end Queue

namespace Queue

/-- `Queue.remove`: `findIndex` by id, return `false` when absent, else
`splice` the one entry at that index out and return `true`. -/
def remove (queue : List QueueItem) (id : String) : List QueueItem × Bool :=
  match queue.findIdx? (fun item => item.id == id) with
  | none => (queue, false)
  | some i => (queue.eraseIdx i, true)

/-- `Queue.updateItem`: reload the persisted queue, replace the entry whose id
matches, and persist.  (All entries have distinct ids in any queue built by
`add`; the replacement is by id.) -/
def replaceById (queue : List QueueItem) (item : QueueItem) : List QueueItem :=
  queue.map (fun q => if q.id = item.id then item else q)

/-- The fallible part of `Queue.processItem`: `getPackageInfo`,
`downloadPackage`, the best-effort docs/examples fetches and `cache.add`,
collapsed to its externally visible outcome for the entry (success, or the
thrown error's message).  `process` is parametrised by it. -/
def Outcome := QueueItem → Except String Unit

/-- One iteration of the `process` loop for `item` (`src/core/database.ts`):
`processItem` first marks the entry `downloading` and persists (`updateItem`);
on success `process` marks it `completed` and persists; on failure
`processItem` marks it `failed` with the error message and persists, and
`process`'s `catch` re-assigns the same status/error and persists again.
Returns the resulting queue value, the persisted snapshots in order, and the
outcome. -/
def processStep (outcome : Outcome) (q : List QueueItem) (item : QueueItem) :
    List QueueItem × List (List QueueItem) × Except String Unit :=
  let itemD : QueueItem := { item with status := Status.downloading }
  let q1 := replaceById q itemD
  match outcome item with
  | Except.ok _ =>
      let itemC : QueueItem := { itemD with status := Status.completed }
      let q2 := replaceById q1 itemC
      (q2, [q1, q2], Except.ok ())
  | Except.error msg =>
      let itemF : QueueItem := { itemD with status := Status.failed, error := some msg }
      let q2 := replaceById q1 itemF
      (q2, [q1, q2, q2], Except.error msg)

/-- The observable run of one `Queue.process` call: final queue value (equal
to the last persisted state), the aggregate `SyncResult`, every persisted
snapshot in order, the persisted snapshot at the end of each item, and the
items handed to `processItem` in order. -/
structure ProcessTrace where
  queue : List QueueItem
  result : SyncResult
  writes : List (List QueueItem)
  afterItem : List (List QueueItem)
  order : List QueueItem
deriving DecidableEq

/-- The `for (const item of pendingItems)` loop of `Queue.process`. -/
def processGo (outcome : Outcome) :
    List QueueItem → List QueueItem → SyncResult → List (List QueueItem) →
    List (List QueueItem) → List QueueItem → ProcessTrace
  | [], q, res, writes, afterW, ord =>
      { queue := q, result := { res with success := res.failed == 0 },
        writes := writes, afterItem := afterW, order := ord }
  | item :: rest, q, res, writes, afterW, ord =>
      match processStep outcome q item with
      | (q2, w, Except.ok _) =>
          processGo outcome rest q2
            { res with downloaded := res.downloaded + 1 }
            (writes ++ w) (afterW ++ [q2]) (ord ++ [item])
      | (q2, w, Except.error msg) =>
          processGo outcome rest q2
            { res with
              failed := res.failed + 1
              errors := res.errors ++ [item.packageName ++ "@" ++ item.version ++ ": " ++ msg] }
            (writes ++ w) (afterW ++ [q2]) (ord ++ [item])

/-- The `pendingItems` snapshot of `Queue.process`:
`queue.filter(item => item.status === 'pending')` — stored queue order, the
source applies no sort here. -/
def pendingItems (queue : List QueueItem) : List QueueItem :=
  queue.filter (fun item => item.status == Status.pending)

/-- `Queue.process`: snapshot the entries currently `pending`, then drain them
one at a time, persisting after every step; `success` is `failed === 0` at the
end. -/
def process (outcome : Outcome) (queue : List QueueItem) : ProcessTrace :=
  processGo outcome (pendingItems queue) queue
    { success := true, downloaded := 0, failed := 0, errors := [], totalSize := 0 }
    [] [] []

/-- The terminal value `process` gives an entry: `completed` on success,
`failed` with the captured message on failure. -/
def endItem (outcome : Outcome) (item : QueueItem) : QueueItem :=
  match outcome item with
  | Except.ok _ => { item with status := Status.completed }
  | Except.error msg => { item with status := Status.failed, error := some msg }

/-- The error string `process` appends for an entry, when its outcome fails:
`` `${item.packageName}@${item.version}: ${item.error}` ``. -/
def errOf (outcome : Outcome) (i : QueueItem) : Option String :=
  match outcome i with
  | Except.ok _ => none
  | Except.error m => some (i.packageName ++ "@" ++ i.version ++ ": " ++ m)

/-- The sequence of end-of-item persisted queue states along a `process` run:
one snapshot per drained item. -/
def pendScan (outcome : Outcome) (q : List QueueItem) : List QueueItem → List (List QueueItem)
  | [] => []
  | s :: rest =>
      let q2 := replaceById q (endItem outcome s)
      q2 :: pendScan outcome q2 rest

end Queue

/-- The digest functions of Node's `crypto` module, a library boundary: the
development is parametric in them — every claim below depends only on which
bytes are digested, never on digest values. -/
structure Digests where
  md5Hex : String → String
  sha256Hex : List Nat → String

/-- Concrete `Digests` instantiation used for closed concrete instances. -/
def testDigests : Digests :=
  { md5Hex := fun s => "md5-" ++ s
    sha256Hex := fun content => "sha256-" ++ toString content }

/-- Node `path.join` for the two-segment joins the cache uses. -/
def pathJoin (a b : String) : String := a ++ "/" ++ b

/-- The on-disk state the `Cache` owns, plus the metadata index: the files of
`<cacheDir>/packages` (name and bytes), and the directory entries of
`<cacheDir>/docs` and `<cacheDir>/examples`. -/
structure CacheState where
  db : List CachedPackage
  packagesFS : List (String × List Nat)
  docsFS : List String
  examplesFS : List String
deriving DecidableEq

/-- `fs.copy` into the packages store: write the file, overwriting any
previous file of the same name. -/
def fsWrite (fs : List (String × List Nat)) (nm : String) (content : List Nat) :
    List (String × List Nat) :=
  fs.filter (fun e => !(e.1 == nm)) ++ [(nm, content)]

/-- `fs.copy` of a docs/examples tree into an id-keyed directory. -/
def fsAddDir (ds : List String) (d : String) : List String :=
  ds.filter (fun e => !(e == d)) ++ [d]

/-- Node `fs-extra`'s `remove` at the library boundary: `removeFails` says
which paths fail to delete (the error carries the path). -/
def fsRemove (removeFails : String → Bool) (p : String) : Except String Unit :=
  if removeFails p then Except.error p else Except.ok ()

namespace Cache

/-- `Cache.generateId` (`src/core/cache.ts`): MD5 hex digest of
`` `${name}@${version}` `` — identity only, no content, no manager, no time. -/
def generateId (dg : Digests) (name version : String) : String :=
  dg.md5Hex (name ++ "@" ++ version)

/-- `Cache.calculateHash`: SHA-256 hex digest of a file's bytes. -/
def calculateHash (dg : Digests) (content : List Nat) : String :=
  dg.sha256Hex content

/-- What `Cache.add` observes of its source paths.  The artifact source file
is read three times — by `calculateHash`, by `getFileSize` (`fs.stat`), and by
`fs.copy` — and a concurrent mutation can make the reads disagree, so each
read's bytes is its own field.  `docsProvided`/`examplesProvided` say whether
the optional path arguments were passed, `docsExists`/`examplesExists` what
`fs.pathExists` answered for them. -/
structure AddSource where
  srcAtHash : List Nat
  srcAtStat : List Nat
  srcAtCopy : List Nat
  docsProvided : Bool := false
  docsExists : Bool := false
  examplesProvided : Bool := false
  examplesExists : Bool := false
deriving DecidableEq

/-- The `cachedPackage` record that `Cache.add` builds and saves: the spread
`PackageInfo` plus `id`, `cachedAt`, `size` and `checksum` computed from the
*source* reads, and the id-keyed store paths. -/
def addRecord (dg : Digests) (cacheDir : String) (info : PackageInfo)
    (src : AddSource) (now : Nat) : CachedPackage :=
  let id := generateId dg info.name info.version
  { id := id
    name := info.name
    version := info.version
    manager := info.manager
    description := info.description
    homepage := info.homepage
    repository := info.repository
    license := info.license
    dependencies := info.dependencies
    devDependencies := info.devDependencies
    peerDependencies := info.peerDependencies
    cachedAt := now
    size := src.srcAtStat.length
    checksum := calculateHash dg src.srcAtHash
    localPath := pathJoin (pathJoin cacheDir "packages") (id ++ ".tar.gz")
    documentationPath :=
      if src.docsProvided && src.docsExists then some (pathJoin (pathJoin cacheDir "docs") id) else none
    examplesPath :=
      if src.examplesProvided && src.examplesExists then some (pathJoin (pathJoin cacheDir "examples") id) else none }

/-- `Cache.add` (`src/core/cache.ts`): compute `id` from `(name, version)`;
hash and stat the *source* artifact path; copy the artifact to
`packages/<id>.tar.gz`; copy docs/examples to `docs/<id>` / `examples/<id>`
when provided and existing; save the record via `Database.savePackage`; return
`id`.  `now` is the `new Date()` of `cachedAt`. -/
def add (dg : Digests) (cacheDir : String) (st : CacheState) (info : PackageInfo)
    (src : AddSource) (now : Nat) : CacheState × String :=
  let id := generateId dg info.name info.version
  let docsOn := src.docsProvided && src.docsExists
  let exOn := src.examplesProvided && src.examplesExists
  ({ db := Database.savePackage st.db (addRecord dg cacheDir info src now)
     packagesFS := fsWrite st.packagesFS (id ++ ".tar.gz") src.srcAtCopy
     docsFS := if docsOn then fsAddDir st.docsFS id else st.docsFS
     examplesFS := if exOn then fsAddDir st.examplesFS id else st.examplesFS }, id)

/-- The bytes currently stored in a packages store under a file name. -/
def storedBytes (fs : List (String × List Nat)) (fname : String) : List Nat :=
  ((fs.find? (fun e => e.1 == fname)).map Prod.snd).getD []

end Cache

deriving instance DecidableEq for Except

namespace Cache

/-- The observable outcome of one `Cache.remove` call: the metadata index
afterwards, the paths deleted in order, and the returned Boolean or the
propagated filesystem error. -/
structure RemoveOutcome where
  db : List CachedPackage
  deleted : List String
  result : Except String Bool
deriving DecidableEq

/-- `Cache.remove` (`src/core/cache.ts`): look the record up; absent returns
`false`; otherwise delete the artifact, then the docs directory if recorded,
then the examples directory if recorded, then remove the metadata record and
return `true`.  Each `fs.remove` is awaited with no `catch`: a failure
propagates immediately and the remaining steps — including the metadata
removal — do not run. -/
def removeModel (db : List CachedPackage) (removeFails : String → Bool)
    (packageName version : String) : RemoveOutcome :=
  match Database.getPackage db packageName version with
  | none => { db := db, deleted := [], result := Except.ok false }
  | some cached =>
    match fsRemove removeFails cached.localPath with
    | Except.error e => { db := db, deleted := [], result := Except.error e }
    | Except.ok _ =>
      let deleted1 := [cached.localPath]
      let docsStep : Except String (List String) :=
        match cached.documentationPath with
        | none => Except.ok deleted1
        | some d =>
          match fsRemove removeFails d with
          | Except.error e => Except.error e
          | Except.ok _ => Except.ok (deleted1 ++ [d])
      match docsStep with
      | Except.error e => { db := db, deleted := deleted1, result := Except.error e }
      | Except.ok deleted2 =>
        let exStep : Except String (List String) :=
          match cached.examplesPath with
          | none => Except.ok deleted2
          | some d =>
            match fsRemove removeFails d with
            | Except.error e => Except.error e
            | Except.ok _ => Except.ok (deleted2 ++ [d])
        match exStep with
        | Except.error e => { db := db, deleted := deleted2, result := Except.error e }
        | Except.ok deleted3 =>
          { db := Database.removePackage db packageName version
            deleted := deleted3
            result := Except.ok true }

/-- Node `path.basename(file, '.tar.gz')` on a plain directory entry: the
suffix is stripped when the name ends with it and is not the whole name
(computed on the character list so that it evaluates by kernel reduction). -/
def stripTarGz (s : String) : String :=
  if ".tar.gz".data.isSuffixOf s.data && !(s == ".tar.gz") then
    String.mk (s.data.take (s.data.length - 7))
  else s

/-- `Cache.cleanup` (`src/core/cache.ts`): list all records; delete every file
of the packages store whose basename (minus `.tar.gz`) is no record's id, and
— via `cleanupDirectory` — every docs/examples directory entry that is no
record's id.  Records themselves are never touched. -/
def cleanupModel (st : CacheState) : CacheState :=
  let packages := Database.listPackages st.db
  { db := st.db
    packagesFS := st.packagesFS.filter (fun f => packages.any (fun pkg => pkg.id == stripTarGz f.1))
    docsFS := st.docsFS.filter (fun d => packages.any (fun pkg => pkg.id == d))
    examplesFS := st.examplesFS.filter (fun d => packages.any (fun pkg => pkg.id == d)) }

end Cache

/-! ### Concrete fixtures for closed instances -/

/-- A terminal (`completed`) queue entry for `("p", "1.0.0", "npm")`. -/
def cEntry : QueueItem := ⟨"x", "p", "1.0.0", "npm", 0, 1, Status.completed, none⟩

/-- A pending low-priority entry queued first. -/
def qLow : QueueItem := ⟨"a", "p", "1", "npm", 0, 0, Status.pending, none⟩

/-- A pending high-priority entry queued second. -/
def qHigh : QueueItem := ⟨"b", "q", "1", "npm", 5, 1, Status.pending, none⟩

/-- An outcome that succeeds for every entry. -/
def okOutcome : Queue.Outcome := fun _ => Except.ok ()

/-- An outcome that fails (only) for package `"q"`. -/
def failQOutcome : Queue.Outcome := fun i =>
  if i.packageName == "q" then Except.error "boom" else Except.ok ()

/-- A cached record for `("p", "1.0.0")` under the npm manager. -/
def r1c : CachedPackage :=
  { id := "X", name := "p", version := "1.0.0", manager := "npm",
    cachedAt := 0, size := 0, checksum := "c", localPath := "l" }

/-- `r1c` with only the manager changed. -/
def r2c : CachedPackage := { r1c with manager := "pip" }

/-- Package coordinates used by the cache fixtures. -/
def infoC : PackageInfo := { name := "p", version := "1.0.0", manager := "npm" }

/-- An artifact source whose content changes between the hash/stat reads and
the copy read (a mutation during `Cache.add`). -/
def mutSrc : Cache.AddSource := { srcAtHash := [0], srcAtStat := [0], srcAtCopy := [0, 0] }

/-- An artifact source that stays unchanged across all three reads. -/
def stableSrc : Cache.AddSource := { srcAtHash := [7], srcAtStat := [7], srcAtCopy := [7] }

/-- An empty cache state. -/
def emptyCache : CacheState := { db := [], packagesFS := [], docsFS := [], examplesFS := [] }

/-- The state after `Cache.add` of `infoC` with the mutating source. -/
def addedMut : CacheState × String := Cache.add testDigests "cache" emptyCache infoC mutSrc 0

/-- A record whose docs directory is recorded. -/
def rWithDocs : CachedPackage :=
  { id := "I", name := "p", version := "1.0.0", manager := "npm",
    cachedAt := 0, size := 3, checksum := "c",
    localPath := "cache/packages/I.tar.gz",
    documentationPath := some "cache/docs/I" }

/-- A cache state with one record, its artifact/docs entries, and one orphan
file plus one orphan docs directory. -/
def stOrphans : CacheState :=
  { db := [rWithDocs]
    packagesFS := [("I.tar.gz", [1, 2, 3]), ("J.tar.gz", [9])]
    docsFS := ["I", "K"]
    examplesFS := ["L"] }

/-! ## Helper lemmas about `Queue.process` -/

namespace Queue

theorem replace_twice (q : List QueueItem) (a b : QueueItem) (h : a.id = b.id) :
    replaceById (replaceById q a) b = replaceById q b := by
  simp only [replaceById, List.map_map]
  congr 1
  funext x
  by_cases hx : x.id = a.id
  · have hb : a.id = b.id := h
    simp [Function.comp, hx, hb, hx.trans hb]
  · have hxb : ¬ x.id = b.id := fun hh => hx (by rw [h]; exact hh)
    simp [Function.comp, hx, hxb]

theorem endItem_id (outcome : Outcome) (item : QueueItem) :
    (endItem outcome item).id = item.id := by
  unfold endItem
  cases outcome item <;> rfl

theorem endItem_terminal (outcome : Outcome) (item : QueueItem) :
    (endItem outcome item).status = Status.completed ∨
    (endItem outcome item).status = Status.failed := by
  unfold endItem
  cases outcome item
  · exact Or.inr rfl
  · exact Or.inl rfl

theorem processStep_queue (outcome : Outcome) (q : List QueueItem) (item : QueueItem) :
    (processStep outcome q item).1 = replaceById q (endItem outcome item) := by
  unfold processStep endItem
  cases outcome item
  · simp only []
    exact replace_twice q _ _ rfl
  · simp only []
    exact replace_twice q _ _ rfl

end Queue

namespace Queue

theorem processGo_totalSize (outcome : Outcome) (pend : List QueueItem) :
    ∀ (q : List QueueItem) (res : SyncResult) (w aw : List (List QueueItem))
      (o : List QueueItem),
      (processGo outcome pend q res w aw o).result.totalSize = res.totalSize := by
  induction pend with
  | nil => intro q res w aw o; rfl
  | cons item rest ih =>
      intro q res w aw o
      cases h : outcome item with
      | ok u => simp only [processGo, processStep, h, ih]
      | error msg => simp only [processGo, processStep, h, ih]

theorem processGo_order (outcome : Outcome) (pend : List QueueItem) :
    ∀ (q : List QueueItem) (res : SyncResult) (w aw : List (List QueueItem))
      (o : List QueueItem),
      (processGo outcome pend q res w aw o).order = o ++ pend := by
  induction pend with
  | nil => intro q res w aw o; simp [processGo]
  | cons item rest ih =>
      intro q res w aw o
      cases h : outcome item with
      | ok u => simp [processGo, processStep, h, ih]
      | error msg => simp [processGo, processStep, h, ih]

end Queue

namespace Queue

theorem processGo_queue (outcome : Outcome) (pend : List QueueItem) :
    ∀ (q : List QueueItem) (res : SyncResult) (w aw : List (List QueueItem))
      (o : List QueueItem),
      (processGo outcome pend q res w aw o).queue
        = pend.foldl (fun acc it => replaceById acc (endItem outcome it)) q := by
  induction pend with
  | nil => intro q res w aw o; rfl
  | cons item rest ih =>
      intro q res w aw o
      have hq := processStep_queue outcome q item
      cases h : outcome item with
      | ok u =>
          simp only [processStep, h] at hq
          simp only [processGo, processStep, h, List.foldl_cons]
          rw [ih, hq]
      | error msg =>
          simp only [processStep, h] at hq
          simp only [processGo, processStep, h, List.foldl_cons]
          rw [ih, hq]

end Queue

namespace Queue

theorem processGo_errors (outcome : Outcome) (pend : List QueueItem) :
    ∀ (q : List QueueItem) (res : SyncResult) (w aw : List (List QueueItem))
      (o : List QueueItem),
      (processGo outcome pend q res w aw o).result.errors
        = res.errors ++ pend.filterMap (errOf outcome) := by
  induction pend with
  | nil => intro q res w aw o; simp [processGo]
  | cons item rest ih =>
      intro q res w aw o
      cases h : outcome item with
      | ok u => simp [processGo, processStep, errOf, h, ih]
      | error msg => simp [processGo, processStep, errOf, h, ih]

theorem processGo_failed (outcome : Outcome) (pend : List QueueItem) :
    ∀ (q : List QueueItem) (res : SyncResult) (w aw : List (List QueueItem))
      (o : List QueueItem),
      (processGo outcome pend q res w aw o).result.failed
        = res.failed + (pend.filterMap (errOf outcome)).length := by
  induction pend with
  | nil => intro q res w aw o; simp [processGo]
  | cons item rest ih =>
      intro q res w aw o
      cases h : outcome item with
      | ok u => simp [processGo, processStep, errOf, h, ih]
      | error msg =>
          simp [processGo, processStep, errOf, h, ih]
          omega

theorem processGo_downloaded (outcome : Outcome) (pend : List QueueItem) :
    ∀ (q : List QueueItem) (res : SyncResult) (w aw : List (List QueueItem))
      (o : List QueueItem),
      (processGo outcome pend q res w aw o).result.downloaded
        = res.downloaded + (pend.countP (fun i => (outcome i).isOk)) := by
  induction pend with
  | nil => intro q res w aw o; simp [processGo]
  | cons item rest ih =>
      intro q res w aw o
      cases h : outcome item with
      | ok u =>
          simp [processGo, processStep, h, ih, List.countP_cons, Except.isOk, Except.toBool]
          omega
      | error msg =>
          simp [processGo, processStep, h, ih, List.countP_cons, Except.isOk, Except.toBool]

theorem processGo_success (outcome : Outcome) (pend : List QueueItem) :
    ∀ (q : List QueueItem) (res : SyncResult) (w aw : List (List QueueItem))
      (o : List QueueItem),
      (processGo outcome pend q res w aw o).result.success
        = ((processGo outcome pend q res w aw o).result.failed == 0) := by
  induction pend with
  | nil => intro q res w aw o; simp [processGo]
  | cons item rest ih =>
      intro q res w aw o
      cases h : outcome item with
      | ok u => simp [processGo, processStep, h, ih]
      | error msg => simp [processGo, processStep, h, ih]

theorem processGo_afterItem (outcome : Outcome) (pend : List QueueItem) :
    ∀ (q : List QueueItem) (res : SyncResult) (w aw : List (List QueueItem))
      (o : List QueueItem),
      (processGo outcome pend q res w aw o).afterItem = aw ++ pendScan outcome q pend := by
  induction pend with
  | nil => intro q res w aw o; simp [processGo, pendScan]
  | cons item rest ih =>
      intro q res w aw o
      have hq := processStep_queue outcome q item
      cases h : outcome item with
      | ok u =>
          simp only [processStep, h] at hq
          simp only [processGo, processStep, h, pendScan]
          rw [ih, hq]
          simp
      | error msg =>
          simp only [processStep, h] at hq
          simp only [processGo, processStep, h, pendScan]
          rw [ih, hq]
          simp

end Queue

namespace Queue

theorem replaceById_length (q : List QueueItem) (item : QueueItem) :
    (replaceById q item).length = q.length := by
  simp [replaceById]

theorem foldEnd_length (outcome : Outcome) (sub : List QueueItem) :
    ∀ q : List QueueItem,
      (sub.foldl (fun acc it => replaceById acc (endItem outcome it)) q).length = q.length := by
  induction sub with
  | nil => intro q; rfl
  | cons s rest ih =>
      intro q
      simp only [List.foldl_cons, ih, replaceById_length]

theorem pendScan_length (outcome : Outcome) (pend : List QueueItem) :
    ∀ q : List QueueItem, (pendScan outcome q pend).length = pend.length := by
  induction pend with
  | nil => intro q; rfl
  | cons s rest ih => intro q; simp [pendScan, ih]

theorem pendScan_get? (outcome : Outcome) (pend : List QueueItem) :
    ∀ (q : List QueueItem) (k : Nat), k < pend.length →
      (pendScan outcome q pend).get? k
        = some ((pend.take (k + 1)).foldl (fun acc it => replaceById acc (endItem outcome it)) q) := by
  induction pend with
  | nil => intro q k hk; simp at hk
  | cons s rest ih =>
      intro q k hk
      cases k with
      | zero => simp [pendScan]
      | succ k' =>
          have hk' : k' < rest.length := by simpa using hk
          simp only [pendScan, List.get?_cons_succ, List.take_succ_cons, List.foldl_cons]
          exact ih _ k' hk'

theorem fold_terminal_of_all (outcome : Outcome) (sub : List QueueItem) (j : String) :
    ∀ q : List QueueItem,
      (∀ y ∈ q, y.id = j → (y.status = Status.completed ∨ y.status = Status.failed)) →
      ∀ x ∈ sub.foldl (fun acc it => replaceById acc (endItem outcome it)) q,
        x.id = j → (x.status = Status.completed ∨ x.status = Status.failed) := by
  induction sub with
  | nil => intro q hq x hx; exact hq x hx
  | cons s rest ih =>
      intro q hq x hx
      refine ih (replaceById q (endItem outcome s)) ?_ x hx
      intro y hy hyj
      rcases List.mem_map.mp hy with ⟨z, hz, hzy⟩
      by_cases hzi : z.id = (endItem outcome s).id
      · rw [← hzy, if_pos hzi]
        exact endItem_terminal outcome s
      · rw [← hzy, if_neg hzi]
        rw [← hzy, if_neg hzi] at hyj
        exact hq z hz hyj

end Queue

namespace Queue

theorem fold_terminal (outcome : Outcome) (sub : List QueueItem) :
    ∀ (q : List QueueItem) (x : QueueItem),
      x ∈ sub.foldl (fun acc it => replaceById acc (endItem outcome it)) q →
      x.id ∈ sub.map (fun s => s.id) →
      (x.status = Status.completed ∨ x.status = Status.failed) := by
  induction sub with
  | nil => intro q x _ hid; simp at hid
  | cons s rest ih =>
      intro q x hx hid
      rcases List.mem_map.mp hid with ⟨s', hs', hsx⟩
      rcases List.mem_cons.mp hs' with h | h
      · subst h
        by_cases hr : x.id ∈ rest.map (fun t => t.id)
        · exact ih _ x hx hr
        · refine fold_terminal_of_all outcome rest s'.id (replaceById q (endItem outcome s')) ?_ x hx hsx.symm
          intro y hy hyj
          rcases List.mem_map.mp hy with ⟨z, hz, hzy⟩
          by_cases hzi : z.id = (endItem outcome s').id
          · rw [← hzy, if_pos hzi]
            exact endItem_terminal outcome s'
          · exfalso
            rw [← hzy, if_neg hzi] at hyj
            exact hzi (by rw [hyj, endItem_id])
      · exact ih _ x hx (hsx ▸ List.mem_map.mpr ⟨s', h, rfl⟩)

theorem find?_id_filter (p : QueueItem → Bool) (queue : List QueueItem)
    (hnd : (queue.map (fun s => s.id)).Nodup) :
    ∀ x ∈ queue, (queue.filter p).find? (fun s => s.id == x.id)
      = if p x then some x else none := by
  induction queue with
  | nil => intro x hx; simp at hx
  | cons y rest ih =>
      intro x hx
      have hnd' : (rest.map (fun s => s.id)).Nodup := (List.nodup_cons.mp hnd).2
      have hyid : y.id ∉ rest.map (fun s => s.id) := (List.nodup_cons.mp hnd).1
      rcases List.mem_cons.mp hx with h | h
      · subst h
        by_cases hp : p x
        · rw [List.filter_cons_of_pos hp]
          rw [List.find?_cons_of_pos _ (by simp)]
          simp [hp]
        · rw [List.filter_cons_of_neg (by simpa using hp)]
          rw [if_neg hp]
          rw [List.find?_eq_none]
          intro a ha hcontra
          have ham : a ∈ rest := List.mem_of_mem_filter ha
          have : a.id = x.id := by simpa using hcontra
          exact hyid (this ▸ List.mem_map.mpr ⟨a, ham, rfl⟩)
      · have hxy : (y.id == x.id) = false := by
          simp only [beq_eq_false_iff_ne, ne_eq]
          intro he
          exact hyid (he ▸ List.mem_map.mpr ⟨x, h, rfl⟩)
        by_cases hp : p y
        · rw [List.filter_cons_of_pos hp, List.find?_cons]
          simp only [hxy]
          exact ih hnd' x h
        · rw [List.filter_cons_of_neg (by simpa using hp)]
          exact ih hnd' x h

theorem foldEnd_map (outcome : Outcome) (sub : List QueueItem)
    (hnd : (sub.map (fun s => s.id)).Nodup) :
    ∀ acc : List QueueItem,
      sub.foldl (fun a s => replaceById a (endItem outcome s)) acc
        = acc.map (fun x =>
            match sub.find? (fun s => s.id == x.id) with
            | some s => endItem outcome s
            | none => x) := by
  induction sub with
  | nil => intro acc; simp
  | cons s rest ih =>
      intro acc
      have hnd' : (rest.map (fun t => t.id)).Nodup := (List.nodup_cons.mp hnd).2
      have hsid : s.id ∉ rest.map (fun t => t.id) := (List.nodup_cons.mp hnd).1
      simp only [List.foldl_cons]
      rw [ih hnd']
      simp only [replaceById, List.map_map]
      congr 1
      funext x
      by_cases hx : x.id = s.id
      · have h1 : (if x.id = (endItem outcome s).id then endItem outcome s else x) = endItem outcome s := by
          rw [if_pos (by rw [endItem_id]; exact hx)]
        have h2 : rest.find? (fun t => t.id == (endItem outcome s).id) = none := by
          rw [List.find?_eq_none]
          intro a ha hc
          exact hsid ((by simpa [endItem_id] using hc : a.id = s.id) ▸ List.mem_map.mpr ⟨a, ha, rfl⟩)
        have h3 : (s :: rest).find? (fun t => t.id == x.id) = some s :=
          List.find?_cons_of_pos _ (by simp [hx])
        simp only [Function.comp, h1, h2, h3]
      · have h1 : (if x.id = (endItem outcome s).id then endItem outcome s else x) = x := by
          rw [if_neg (by rw [endItem_id]; exact hx)]
        have h3 : (s :: rest).find? (fun t => t.id == x.id) = rest.find? (fun t => t.id == x.id) :=
          List.find?_cons_of_neg _ (by simp; intro he; exact hx he.symm)
        simp only [Function.comp, h1, h3]

end Queue

namespace Queue

theorem process_queue_eq (outcome : Outcome) (queue : List QueueItem)
    (hnd : (queue.map (fun i => i.id)).Nodup) :
    (process outcome queue).queue
      = queue.map (fun x => if x.status == Status.pending then endItem outcome x else x) := by
  unfold process pendingItems
  rw [processGo_queue]
  have hsub : ((queue.filter (fun item => item.status == Status.pending)).map
      (fun s => s.id)).Nodup := by
    have hsl : List.Sublist
        ((queue.filter (fun item => item.status == Status.pending)).map (fun s => s.id))
        (queue.map (fun s => s.id)) :=
      (List.filter_sublist queue).map (fun s => s.id)
    exact List.Nodup.sublist hsl hnd
  rw [foldEnd_map outcome _ hsub]
  apply List.map_congr_left
  intro x hx
  rw [find?_id_filter (fun item => item.status == Status.pending) queue hnd x hx]
  by_cases hp : x.status == Status.pending
  · simp [hp]
  · simp [hp]

end Queue

/-! ## Claim theorems -/

/-- **C10.** The `SyncResult` returned by `DownloadQueue.process` always has
`totalSize` equal to `0`, for every queue state and every outcome of the
per-item steps: no code path ever adds downloaded bytes into `totalSize`. -/
theorem queue_process_totalSize_always_zero (outcome : Queue.Outcome) (queue : List QueueItem) :
    (Queue.process outcome queue).result.totalSize = 0 := by
  unfold Queue.process
  rw [Queue.processGo_totalSize]

/-- **C2 (amended).** `DownloadQueue.process` iterates the entries that are
`pending` at the start of the call in *stored queue (insertion) order* — the
unsorted snapshot `queue.filter(status === 'pending')` — not in `list()`'s
priority-then-FIFO order; the processing order coincides with `list()`
restricted to pending entries only when the stored queue is already sorted by
the `list()` comparator. -/
theorem queue_process_order_is_stored_order (outcome : Queue.Outcome) (queue : List QueueItem) :
    (Queue.process outcome queue).order = Queue.pendingItems queue ∧
    (queue.Pairwise (fun a b => Queue.qle a b) →
      (Queue.process outcome queue).order
        = (Queue.list queue).filter (fun i => i.status == Status.pending)) := by
  constructor
  · unfold Queue.process
    rw [Queue.processGo_order]
    simp
  · intro hs
    unfold Queue.list
    rw [List.mergeSort_of_sorted hs]
    unfold Queue.process Queue.pendingItems
    rw [Queue.processGo_order]
    simp

/-- **C2 (counterexample).** With a stored queue holding a priority-0 entry
queued first and a priority-5 entry queued second (both pending), `process`
hands the items out in stored order, which differs from `list()`'s
priority-descending order restricted to pending entries. -/
theorem queue_process_order_not_list_order :
    ¬ ((Queue.process okOutcome [qLow, qHigh]).order
        = (Queue.list [qLow, qHigh]).filter (fun i => i.status == Status.pending)) := by
  have hlist : Queue.list [qLow, qHigh] = [qHigh, qLow] := by
    simp [Queue.list, List.mergeSort, Queue.qle, qLow, qHigh]
  rw [hlist]
  decide

/-- **C2 (witness).** On a stored queue already sorted by the comparator, the
processing order does equal `list()` restricted to pending entries. -/
theorem queue_process_order_is_stored_order_witness :
    ([qHigh, qLow] : List QueueItem).Pairwise (fun a b => Queue.qle a b) ∧
    (Queue.process okOutcome [qHigh, qLow]).order
      = (Queue.list [qHigh, qLow]).filter (fun i => i.status == Status.pending) :=
  ⟨by decide, (queue_process_order_is_stored_order okOutcome [qHigh, qLow]).2 (by decide)⟩

/-- **C8.** During `DownloadQueue.process`, the full queue is persisted after
every single item reaches its terminal status, not batched at the end: the run
produces one end-of-item persisted snapshot per drained item, and the snapshot
written after the `(k+1)`-st item records a terminal status (`completed` or
`failed`) for every entry whose id is among the first `k+1` processed items —
an interruption loses at most the one in-flight item. -/
theorem queue_process_persists_per_item (outcome : Queue.Outcome) (queue : List QueueItem)
    (k : Nat) (hk : k < (Queue.pendingItems queue).length) :
    (Queue.process outcome queue).afterItem.length = (Queue.pendingItems queue).length ∧
    ∃ w, (Queue.process outcome queue).afterItem.get? k = some w ∧
      ∀ s ∈ (Queue.pendingItems queue).take (k + 1), ∀ x ∈ w, x.id = s.id →
        (x.status = Status.completed ∨ x.status = Status.failed) := by
  have hai : (Queue.process outcome queue).afterItem
      = Queue.pendScan outcome queue (Queue.pendingItems queue) := by
    unfold Queue.process
    rw [Queue.processGo_afterItem]
    simp
  constructor
  · rw [hai, Queue.pendScan_length]
  · refine ⟨((Queue.pendingItems queue).take (k + 1)).foldl
        (fun acc it => Queue.replaceById acc (Queue.endItem outcome it)) queue, ?_, ?_⟩
    · rw [hai]
      exact Queue.pendScan_get? outcome (Queue.pendingItems queue) queue k hk
    · intro s hs x hx hxs
      refine Queue.fold_terminal outcome ((Queue.pendingItems queue).take (k + 1)) queue x hx ?_
      rw [hxs]
      exact List.mem_map.mpr ⟨s, hs, rfl⟩

/-- **C8 (witness).** A concrete two-item queue where the second item fails:
after the second item the persisted snapshot has both processed entries
terminal. -/
theorem queue_process_persists_per_item_witness :
    1 < (Queue.pendingItems [qLow, qHigh]).length ∧
    ((Queue.process failQOutcome [qLow, qHigh]).afterItem.length
        = (Queue.pendingItems [qLow, qHigh]).length ∧
      ∃ w, (Queue.process failQOutcome [qLow, qHigh]).afterItem.get? 1 = some w ∧
        ∀ s ∈ (Queue.pendingItems [qLow, qHigh]).take 2, ∀ x ∈ w, x.id = s.id →
          (x.status = Status.completed ∨ x.status = Status.failed)) :=
  ⟨by decide, queue_process_persists_per_item failQOutcome [qLow, qHigh] 1 (by decide)⟩

/-- **C9.** When the per-item step fails for an entry, `process` records the
error string `name@version: message` (the errors list is exactly the failing
items' strings, in processing order), still hands out every pending entry
(the drain is not aborted), never removes entries (queue length is
preserved), leaves the failing entry in the queue marked `failed` with the
captured message, and reports `success` exactly when `failed = 0`. -/
theorem queue_process_failure_handling (outcome : Queue.Outcome) (queue : List QueueItem)
    (hnd : (queue.map (fun i => i.id)).Nodup) :
    (Queue.process outcome queue).result.errors
      = (Queue.pendingItems queue).filterMap (Queue.errOf outcome) ∧
    (Queue.process outcome queue).order = Queue.pendingItems queue ∧
    (Queue.process outcome queue).queue.length = queue.length ∧
    ((Queue.process outcome queue).result.success = true ↔
      (Queue.process outcome queue).result.failed = 0) ∧
    (∀ x ∈ queue, x.status = Status.pending → ∀ m, outcome x = Except.error m →
      ({ x with status := Status.failed, error := some m } : QueueItem)
        ∈ (Queue.process outcome queue).queue) := by
  refine ⟨?_, ?_, ?_, ?_, ?_⟩
  · unfold Queue.process
    rw [Queue.processGo_errors]
    simp
  · unfold Queue.process
    rw [Queue.processGo_order]
    simp
  · unfold Queue.process
    rw [Queue.processGo_queue, Queue.foldEnd_length]
  · unfold Queue.process
    rw [Queue.processGo_success]
    simp
  · intro x hx hp m hm
    rw [Queue.process_queue_eq outcome queue hnd]
    refine List.mem_map.mpr ⟨x, hx, ?_⟩
    simp [hp, Queue.endItem, hm]

/-- **C9 (witness).** The concrete failing run: `qHigh`'s package `"q"` fails
with `"boom"`; the entry ends `failed` with that message, the error list is
`["q@1: boom"]`, and nothing is removed. -/
theorem queue_process_failure_handling_witness :
    (([qLow, qHigh] : List QueueItem).map (fun i => i.id)).Nodup ∧
    (Queue.process failQOutcome [qLow, qHigh]).result.errors
      = (Queue.pendingItems [qLow, qHigh]).filterMap (Queue.errOf failQOutcome) ∧
    ({ qHigh with status := Status.failed, error := some "boom" } : QueueItem)
      ∈ (Queue.process failQOutcome [qLow, qHigh]).queue :=
  ⟨by decide,
    (queue_process_failure_handling failQOutcome [qLow, qHigh] (by decide)).1,
    (queue_process_failure_handling failQOutcome [qLow, qHigh] (by decide)).2.2.2.2 qHigh
      (by decide) (by decide) "boom" (by decide)⟩

theorem find?_pred_of_eq_some {α : Type} (p : α → Bool) (l : List α) (a : α)
    (h : l.find? p = some a) : p a = true :=
  List.find?_some h

/-- **C1 (amended).** `DownloadQueue.add` rejects with the duplicate error if
and only if an entry with the same `(packageName, version, manager)` triple
exists in *any* status — the source's duplicate check has no status filter, so
a `completed` or `failed` entry also blocks re-adding; otherwise it appends a
fresh `pending` entry and returns its id. -/
theorem queue_add_duplicate_check_ignores_status
    (queue : List QueueItem) (packageName version manager : String)
    (priority : Int) (now : Nat) (random : String) :
    ((Queue.add queue packageName version manager priority now random).isOk = true ↔
      ∀ e ∈ queue, ¬(e.packageName = packageName ∧ e.version = version ∧ e.manager = manager)) ∧
    (∀ e ∈ queue, e.packageName = packageName → e.version = version → e.manager = manager →
      Queue.add queue packageName version manager priority now random
        = Except.error ("Package " ++ packageName ++ "@" ++ version ++ " is already queued")) ∧
    ((∀ e ∈ queue, ¬(e.packageName = packageName ∧ e.version = version ∧ e.manager = manager)) →
      Queue.add queue packageName version manager priority now random
        = Except.ok (queue ++
            [⟨Queue.generateId packageName version manager now random, packageName, version,
              manager, priority, now, Status.pending, none⟩],
            Queue.generateId packageName version manager now random)) := by
  have hpred : ∀ e : QueueItem,
      ((e.packageName == packageName && e.version == version && e.manager == manager) = true) ↔
        (e.packageName = packageName ∧ e.version = version ∧ e.manager = manager) := by
    intro e
    simp [Bool.and_eq_true, and_assoc]
  cases hfind : queue.find? (fun item =>
      item.packageName == packageName && item.version == version && item.manager == manager) with
  | none =>
    have hall : ∀ e ∈ queue,
        ¬(e.packageName = packageName ∧ e.version = version ∧ e.manager = manager) := by
      intro e he hc
      exact (List.find?_eq_none.mp hfind e he) ((hpred e).mpr hc)
    have hadd : Queue.add queue packageName version manager priority now random
        = Except.ok (queue ++
            [⟨Queue.generateId packageName version manager now random, packageName, version,
              manager, priority, now, Status.pending, none⟩],
            Queue.generateId packageName version manager now random) := by
      simp only [Queue.add]
      rw [hfind]
    refine ⟨⟨fun _ => hall, fun _ => ?_⟩, ?_, fun _ => hadd⟩
    · rw [hadd]
      rfl
    · intro e he h1 h2 h3
      exact absurd ⟨h1, h2, h3⟩ (hall e he)
  | some a =>
    have hpa := find?_pred_of_eq_some
      (fun item => item.packageName == packageName && item.version == version &&
        item.manager == manager) queue a hfind
    have hconj := (hpred a).mp hpa
    have hmem := List.mem_of_find?_eq_some hfind
    have hadd : Queue.add queue packageName version manager priority now random
        = Except.error ("Package " ++ packageName ++ "@" ++ version ++ " is already queued") := by
      simp only [Queue.add]
      rw [hfind]
    refine ⟨?_, fun e he h1 h2 h3 => hadd, fun hall => absurd hconj (hall a hmem)⟩
    rw [hadd]
    constructor
    · intro hfalse
      exact absurd hfalse (by simp [Except.isOk, Except.toBool])
    · intro hall
      exact absurd hconj (hall a hmem)

/-- **C1 (counterexample).** A queue whose only entry for
`("p","1.0.0","npm")` is `completed` still rejects re-adding the triple — the
claim's "adding again succeeds after completed/failed" fails on the code. -/
theorem queue_add_after_completed_rejected :
    cEntry.status = Status.completed ∧
    ¬ ((Queue.add [cEntry] "p" "1.0.0" "npm" 0 3 "r").isOk = true) := by decide

/-- **C1 (witness).** Applying the amended characterization at the concrete
completed entry yields the duplicate error. -/
theorem queue_add_duplicate_check_ignores_status_witness :
    (cEntry ∈ [cEntry] ∧ cEntry.packageName = "p" ∧ cEntry.version = "1.0.0" ∧
      cEntry.manager = "npm") ∧
    Queue.add [cEntry] "p" "1.0.0" "npm" 0 3 "r"
      = Except.error ("Package " ++ "p" ++ "@" ++ "1.0.0" ++ " is already queued") :=
  ⟨⟨List.mem_singleton.mpr rfl, rfl, rfl, rfl⟩,
    (queue_add_duplicate_check_ignores_status [cEntry] "p" "1.0.0" "npm" 0 3 "r").2.1 cEntry
      (List.mem_singleton.mpr rfl) rfl rfl rfl⟩

/-- **C5 (amended).** `MetadataStore.save` is an upsert keyed by
`(name, version)` (and by the row id), *not* by the full
`(name, version, manager)` triple: saving fully replaces any existing record
with the same `(name, version)` — even one that differs only in `manager` —
and afterwards the key looks up exactly the saved record. -/
theorem database_save_upsert_keyed_name_version (db : List CachedPackage) (pkg : CachedPackage) :
    Database.getPackage (Database.savePackage db pkg) pkg.name pkg.version = some pkg ∧
    ∀ r ∈ Database.savePackage db pkg,
      r = pkg ∨ (r ∈ db ∧ r.id ≠ pkg.id ∧ ¬(r.name = pkg.name ∧ r.version = pkg.version)) := by
  constructor
  · unfold Database.getPackage Database.savePackage
    rw [List.find?_append]
    have h1 : (db.filter (fun r =>
        !(r.id == pkg.id) && !(r.name == pkg.name && r.version == pkg.version))).find?
          (fun r => r.name == pkg.name && r.version == pkg.version) = none := by
      rw [List.find?_eq_none]
      intro x hx
      have hx2 := (List.mem_filter.mp hx).2
      simp only [Bool.and_eq_true, Bool.not_eq_true'] at hx2
      simp [hx2.2]
    rw [h1]
    simp
  · intro r hr
    unfold Database.savePackage at hr
    rcases List.mem_append.mp hr with h | h
    · right
      have hm := List.mem_filter.mp h
      have hb := hm.2
      simp only [Bool.and_eq_true, Bool.not_eq_true'] at hb
      refine ⟨hm.1, fun he => ?_, fun hc => ?_⟩
      · have hb1 := hb.1
        rw [he] at hb1
        simp at hb1
      · have hb2 := hb.2
        rw [hc.1, hc.2] at hb2
        simp at hb2
    · left
      simpa using h

/-- **C5 (counterexample).** Two records equal except for `manager`: saving
the second replaces the first (the `UNIQUE(name, version)` constraint and the
manager-blind id make them collide), so they are not kept distinct. -/
theorem database_save_manager_not_in_key :
    r1c.name = r2c.name ∧ r1c.version = r2c.version ∧ r1c.manager ≠ r2c.manager ∧
    Database.savePackage (Database.savePackage [] r1c) r2c = [r2c] ∧
    ¬ (r1c ∈ Database.savePackage (Database.savePackage [] r1c) r2c) := by decide

/-- **C5 (witness).** Applying the upsert characterization at the concrete
colliding pair. -/
theorem database_save_upsert_keyed_name_version_witness :
    Database.getPackage (Database.savePackage [r1c] r2c) r2c.name r2c.version = some r2c ∧
    (r2c = r2c ∨ (r2c ∈ [r1c] ∧ r2c.id ≠ r1c.id ∧
      ¬(r2c.name = r1c.name ∧ r2c.version = r1c.version))) :=
  ⟨(database_save_upsert_keyed_name_version [r1c] r2c).1,
    (database_save_upsert_keyed_name_version [r1c] r2c).2 r2c (by decide)⟩

/-! ## Helper lemmas about the metadata index and the cache store -/

theorem database_getPackage_savePackage (db : List CachedPackage) (pkg : CachedPackage) :
    Database.getPackage (Database.savePackage db pkg) pkg.name pkg.version = some pkg := by
  unfold Database.getPackage Database.savePackage
  rw [List.find?_append]
  have h1 : (db.filter (fun r =>
      !(r.id == pkg.id) && !(r.name == pkg.name && r.version == pkg.version))).find?
        (fun r => r.name == pkg.name && r.version == pkg.version) = none := by
    rw [List.find?_eq_none]
    intro x hx
    have hx2 := (List.mem_filter.mp hx).2
    simp only [Bool.and_eq_true, Bool.not_eq_true'] at hx2
    simp [hx2.2]
  rw [h1]
  simp

theorem cache_storedBytes_fsWrite (fs : List (String × List Nat)) (nm : String) (c : List Nat) :
    Cache.storedBytes (fsWrite fs nm c) nm = c := by
  unfold Cache.storedBytes fsWrite
  rw [List.find?_append]
  have h1 : (fs.filter (fun e => !(e.1 == nm))).find? (fun e => e.1 == nm) = none := by
    rw [List.find?_eq_none]
    intro x hx
    have hx2 := (List.mem_filter.mp hx).2
    simp only [Bool.not_eq_true'] at hx2
    simp [hx2]
  rw [h1]
  simp

/-- **C3 (amended).** `CacheStore.add` computes the stored record's checksum
and size from the *caller-supplied source file as read before the copy* — not
from the bytes of the artifact copy placed in the store — so a mutation of the
source during the copy *can* make the recorded checksum and size disagree
with the cached bytes; they agree whenever the source is unchanged across the
hash, stat and copy reads. -/
theorem cache_add_checksum_size_from_source (dg : Digests) (cacheDir : String)
    (st : CacheState) (info : PackageInfo) (src : Cache.AddSource) (now : Nat) :
    Database.getPackage (Cache.add dg cacheDir st info src now).1.db info.name info.version
      = some (Cache.addRecord dg cacheDir info src now) ∧
    (Cache.addRecord dg cacheDir info src now).checksum = Cache.calculateHash dg src.srcAtHash ∧
    (Cache.addRecord dg cacheDir info src now).size = src.srcAtStat.length ∧
    Cache.storedBytes (Cache.add dg cacheDir st info src now).1.packagesFS
        ((Cache.addRecord dg cacheDir info src now).id ++ ".tar.gz") = src.srcAtCopy ∧
    (src.srcAtHash = src.srcAtCopy → src.srcAtStat = src.srcAtCopy →
      ((Cache.addRecord dg cacheDir info src now).checksum
          = Cache.calculateHash dg (Cache.storedBytes
              (Cache.add dg cacheDir st info src now).1.packagesFS
              ((Cache.addRecord dg cacheDir info src now).id ++ ".tar.gz")) ∧
        (Cache.addRecord dg cacheDir info src now).size
          = (Cache.storedBytes (Cache.add dg cacheDir st info src now).1.packagesFS
              ((Cache.addRecord dg cacheDir info src now).id ++ ".tar.gz")).length)) := by
  have hsb : Cache.storedBytes (Cache.add dg cacheDir st info src now).1.packagesFS
      ((Cache.addRecord dg cacheDir info src now).id ++ ".tar.gz") = src.srcAtCopy :=
    cache_storedBytes_fsWrite st.packagesFS
      (Cache.generateId dg info.name info.version ++ ".tar.gz") src.srcAtCopy
  refine ⟨?_, rfl, rfl, hsb, fun h1 h2 => ⟨?_, ?_⟩⟩
  · exact database_getPackage_savePackage st.db (Cache.addRecord dg cacheDir info src now)
  · rw [hsb, ← h1]
    rfl
  · rw [hsb, ← h2]
    rfl

/-- **C3 (counterexample).** With a source whose bytes at hash/stat time are
`[0]` but `[0, 0]` at copy time, the saved record's size (and checksum input)
come from the pre-copy reads and disagree with the cached bytes — refuting
"computed from the bytes of the artifact copy" as stated. -/
theorem cache_add_checksum_size_not_from_copy :
    Database.getPackage addedMut.1.db "p" "1.0.0"
      = some (Cache.addRecord testDigests "cache" infoC mutSrc 0) ∧
    ¬ ((Cache.addRecord testDigests "cache" infoC mutSrc 0).size
        = (Cache.storedBytes addedMut.1.packagesFS
            ((Cache.addRecord testDigests "cache" infoC mutSrc 0).id ++ ".tar.gz")).length) ∧
    ¬ ((Cache.addRecord testDigests "cache" infoC mutSrc 0).checksum
        = Cache.calculateHash testDigests (Cache.storedBytes addedMut.1.packagesFS
            ((Cache.addRecord testDigests "cache" infoC mutSrc 0).id ++ ".tar.gz"))) := by
  decide

/-- **C3 (witness).** With an unchanged source the recorded checksum and size
do match the cached bytes. -/
theorem cache_add_checksum_size_from_source_witness :
    (stableSrc.srcAtHash = stableSrc.srcAtCopy ∧ stableSrc.srcAtStat = stableSrc.srcAtCopy) ∧
    ((Cache.addRecord testDigests "cache" infoC stableSrc 0).checksum
        = Cache.calculateHash testDigests (Cache.storedBytes
            (Cache.add testDigests "cache" emptyCache infoC stableSrc 0).1.packagesFS
            ((Cache.addRecord testDigests "cache" infoC stableSrc 0).id ++ ".tar.gz")) ∧
      (Cache.addRecord testDigests "cache" infoC stableSrc 0).size
        = (Cache.storedBytes (Cache.add testDigests "cache" emptyCache infoC stableSrc 0).1.packagesFS
            ((Cache.addRecord testDigests "cache" infoC stableSrc 0).id ++ ".tar.gz")).length) :=
  ⟨⟨rfl, rfl⟩,
    (cache_add_checksum_size_from_source testDigests "cache" emptyCache infoC stableSrc 0).2.2.2.2
      rfl rfl⟩

/-- **C6.** The cache id is a pure function of package identity
`(name, version)` and not of artifact content or time: `add` followed by
`remove` followed by `add` again with the same identity — any artifact
contents, any timestamps, any remove outcome — returns the same id both
times. -/
theorem cache_id_reproducible (dg : Digests) (cacheDir : String) (st : CacheState)
    (info info2 : PackageInfo) (src src2 : Cache.AddSource) (now now2 : Nat)
    (rmFails : String → Bool)
    (h1 : info2.name = info.name) (h2 : info2.version = info.version) :
    (Cache.add dg cacheDir
        { db := (Cache.removeModel (Cache.add dg cacheDir st info src now).1.db rmFails
            info.name info.version).db
          packagesFS := (Cache.add dg cacheDir st info src now).1.packagesFS
          docsFS := (Cache.add dg cacheDir st info src now).1.docsFS
          examplesFS := (Cache.add dg cacheDir st info src now).1.examplesFS }
        info2 src2 now2).2
      = (Cache.add dg cacheDir st info src now).2 := by
  simp [Cache.add, Cache.generateId, h1, h2]

/-- **C6 (witness).** The concrete add–remove–add round trip with different
artifact contents and timestamps returns the same id. -/
theorem cache_id_reproducible_witness :
    (infoC.name = infoC.name ∧ infoC.version = infoC.version) ∧
    (Cache.add testDigests "cache"
        { db := (Cache.removeModel (Cache.add testDigests "cache" emptyCache infoC stableSrc 0).1.db
            (fun _ => false) infoC.name infoC.version).db
          packagesFS := (Cache.add testDigests "cache" emptyCache infoC stableSrc 0).1.packagesFS
          docsFS := (Cache.add testDigests "cache" emptyCache infoC stableSrc 0).1.docsFS
          examplesFS := (Cache.add testDigests "cache" emptyCache infoC stableSrc 0).1.examplesFS }
        infoC mutSrc 5).2
      = (Cache.add testDigests "cache" emptyCache infoC stableSrc 0).2 :=
  ⟨⟨rfl, rfl⟩,
    cache_id_reproducible testDigests "cache" emptyCache infoC infoC stableSrc mutSrc 0 5
      (fun _ => false) rfl rfl⟩

/-- **C4 (amended).** `CacheStore.remove` returns `false` without changing
state when no record exists; when a record exists and every filesystem delete
succeeds it deletes artifact → docs → examples and then removes the metadata
record, returning `true`; but when *any* of the three filesystem deletes
fails — artifact, docs or examples — the error propagates immediately, the
later deletes do not run, and the metadata record removal is *skipped* (the
record is retained), not still attempted. -/
theorem cache_remove_order_and_failure (db : List CachedPackage) (removeFails : String → Bool)
    (packageName version : String) :
    (Database.getPackage db packageName version = none →
      Cache.removeModel db removeFails packageName version
        = { db := db, deleted := [], result := Except.ok false }) ∧
    (∀ r, Database.getPackage db packageName version = some r →
      removeFails r.localPath = false →
      (∀ d, r.documentationPath = some d → removeFails d = false) →
      (∀ d, r.examplesPath = some d → removeFails d = false) →
      Cache.removeModel db removeFails packageName version
        = { db := Database.removePackage db packageName version
            deleted := [r.localPath] ++ r.documentationPath.toList ++ r.examplesPath.toList
            result := Except.ok true }) ∧
    (∀ r, Database.getPackage db packageName version = some r →
      removeFails r.localPath = false →
      ∀ d, r.documentationPath = some d → removeFails d = true →
      Cache.removeModel db removeFails packageName version
        = { db := db, deleted := [r.localPath], result := Except.error d }) ∧
    (∀ r, Database.getPackage db packageName version = some r →
      removeFails r.localPath = false →
      (∀ d, r.documentationPath = some d → removeFails d = false) →
      ∀ d2, r.examplesPath = some d2 → removeFails d2 = true →
      Cache.removeModel db removeFails packageName version
        = { db := db, deleted := [r.localPath] ++ r.documentationPath.toList
            result := Except.error d2 }) ∧
    (∀ r, Database.getPackage db packageName version = some r →
      removeFails r.localPath = true →
      Cache.removeModel db removeFails packageName version
        = { db := db, deleted := [], result := Except.error r.localPath }) := by
  refine ⟨?_, ?_, ?_, ?_, ?_⟩
  · intro h
    unfold Cache.removeModel
    rw [h]
  · intro r h hfa hfd hfe
    unfold Cache.removeModel
    rw [h]
    cases hd : r.documentationPath with
    | none =>
        cases he : r.examplesPath with
        | none => simp [fsRemove, hfa, hd, he]
        | some d => simp [fsRemove, hfa, hd, he, hfe d he]
    | some d =>
        have hfd' := hfd d hd
        cases he : r.examplesPath with
        | none => simp [fsRemove, hfa, hd, he, hfd']
        | some d2 => simp [fsRemove, hfa, hd, he, hfd', hfe d2 he]
  · intro r h hfa d hd hfd
    unfold Cache.removeModel
    rw [h]
    simp [fsRemove, hfa, hd, hfd]
  · intro r h hfa hfd d2 he hfe2
    unfold Cache.removeModel
    rw [h]
    cases hd : r.documentationPath with
    | none => simp [fsRemove, hfa, hd, he, hfe2]
    | some d => simp [fsRemove, hfa, hd, he, hfd d hd, hfe2]
  · intro r h hfa
    unfold Cache.removeModel
    rw [h]
    simp [fsRemove, hfa]

/-- **C4 (counterexample).** With a record present and `fs.remove` failing on
the artifact path, `remove` propagates the error and the metadata record is
*not* removed — refuting "the metadata record removal is still attempted". -/
theorem cache_remove_failure_skips_metadata :
    Database.getPackage [rWithDocs] "p" "1.0.0" = some rWithDocs ∧
    (Cache.removeModel [rWithDocs] (fun _ => true) "p" "1.0.0").result
      = Except.error rWithDocs.localPath ∧
    (Cache.removeModel [rWithDocs] (fun _ => true) "p" "1.0.0").db = [rWithDocs] ∧
    ¬ ((Cache.removeModel [rWithDocs] (fun _ => true) "p" "1.0.0").db
        = Database.removePackage [rWithDocs] "p" "1.0.0") := by
  decide

/-- **C4 (witness).** The success path at a concrete record with docs: deletes
artifact then docs, removes the record, returns `true`. -/
theorem cache_remove_order_and_failure_witness :
    Database.getPackage [rWithDocs] "p" "1.0.0" = some rWithDocs ∧
    Cache.removeModel [rWithDocs] (fun _ => false) "p" "1.0.0"
      = { db := Database.removePackage [rWithDocs] "p" "1.0.0"
          deleted := [rWithDocs.localPath] ++ rWithDocs.documentationPath.toList
            ++ rWithDocs.examplesPath.toList
          result := Except.ok true } ∧
    Cache.removeModel [rWithDocs] (fun q => q == "cache/docs/I") "p" "1.0.0"
      = { db := [rWithDocs], deleted := [rWithDocs.localPath]
          result := Except.error "cache/docs/I" } :=
  ⟨by decide,
    (cache_remove_order_and_failure [rWithDocs] (fun _ => false) "p" "1.0.0").2.1 rWithDocs
      (by decide) rfl (fun d hd => rfl) (fun d hd => by simp [rWithDocs] at hd),
    (cache_remove_order_and_failure [rWithDocs] (fun q => q == "cache/docs/I") "p" "1.0.0").2.2.1
      rWithDocs (by decide) (by decide) "cache/docs/I" (by decide) (by decide)⟩

/-- **C7.** `CacheStore.cleanup` deletes exactly the orphans: afterwards every
file in the packages store and every directory entry in the docs and examples
stores corresponds to some metadata record's id; no id-keyed file or
directory of a record was deleted; and the metadata index is untouched — in
particular a record whose artifact file is missing stays in the index. -/
theorem cache_cleanup_removes_exactly_orphans (st : CacheState) :
    (∀ f ∈ (Cache.cleanupModel st).packagesFS, ∃ p ∈ st.db, p.id = Cache.stripTarGz f.1) ∧
    (∀ d ∈ (Cache.cleanupModel st).docsFS, ∃ p ∈ st.db, p.id = d) ∧
    (∀ d ∈ (Cache.cleanupModel st).examplesFS, ∃ p ∈ st.db, p.id = d) ∧
    (∀ p ∈ st.db, ∀ f ∈ st.packagesFS, Cache.stripTarGz f.1 = p.id →
      f ∈ (Cache.cleanupModel st).packagesFS) ∧
    (∀ p ∈ st.db, ∀ d ∈ st.docsFS, d = p.id → d ∈ (Cache.cleanupModel st).docsFS) ∧
    (∀ p ∈ st.db, ∀ d ∈ st.examplesFS, d = p.id → d ∈ (Cache.cleanupModel st).examplesFS) ∧
    (Cache.cleanupModel st).db = st.db := by
  have hmemlist : ∀ p : CachedPackage, p ∈ Database.listPackages st.db ↔ p ∈ st.db := by
    intro p
    unfold Database.listPackages
    exact List.mem_mergeSort
  simp only [Cache.cleanupModel]
  refine ⟨?_, ?_, ?_, ?_, ?_, ?_, trivial⟩
  · intro f hf
    rcases List.any_eq_true.mp (List.mem_filter.mp hf).2 with ⟨pkg, hpm, hpb⟩
    exact ⟨pkg, (hmemlist pkg).mp hpm, by simpa using hpb⟩
  · intro d hd
    rcases List.any_eq_true.mp (List.mem_filter.mp hd).2 with ⟨pkg, hpm, hpb⟩
    exact ⟨pkg, (hmemlist pkg).mp hpm, by simpa using hpb⟩
  · intro d hd
    rcases List.any_eq_true.mp (List.mem_filter.mp hd).2 with ⟨pkg, hpm, hpb⟩
    exact ⟨pkg, (hmemlist pkg).mp hpm, by simpa using hpb⟩
  · intro p hp f hf hid
    exact List.mem_filter.mpr ⟨hf, List.any_eq_true.mpr ⟨p, (hmemlist p).mpr hp, by simp [hid]⟩⟩
  · intro p hp d hd hid
    exact List.mem_filter.mpr ⟨hd, List.any_eq_true.mpr ⟨p, (hmemlist p).mpr hp, by simp [hid]⟩⟩
  · intro p hp d hd hid
    exact List.mem_filter.mpr ⟨hd, List.any_eq_true.mpr ⟨p, (hmemlist p).mpr hp, by simp [hid]⟩⟩

/-- **C7 (witness).** In the concrete orphan state, the referenced artifact
file survives cleanup. -/
theorem cache_cleanup_removes_exactly_orphans_witness :
    (rWithDocs ∈ stOrphans.db ∧ ("I.tar.gz", [1, 2, 3]) ∈ stOrphans.packagesFS ∧
      Cache.stripTarGz "I.tar.gz" = rWithDocs.id) ∧
    ("I.tar.gz", [1, 2, 3]) ∈ (Cache.cleanupModel stOrphans).packagesFS :=
  ⟨⟨by decide, by decide, by decide⟩,
    (cache_cleanup_removes_exactly_orphans stOrphans).2.2.2.1 rWithDocs (by decide)
      ("I.tar.gz", [1, 2, 3]) (by decide) (by decide)⟩
